import Mathlib

/-!
# sqaod: the batched linear-algebra layer of the CUDA dense-graph annealer

A shallow embedding of `libsqaod/cuda/DeviceMath.cpp`, of the state flags of
`libsqaod/common/Solver.h` and of the state machine declared in
`libsqaod/cuda/CUDADenseGraphAnnealer.h`.

* The template parameter `real` is a type `R` with `[CommRing R]`: arithmetic is exact, rounding
  is not modelled.
* A device buffer (`real *d_data`) is a `List R`; a read is `rd`, a write keeps the length.
* `DeviceMatrix`, `DeviceVector`, `DeviceScalar` carry the fields of the C++ objects.  Matrices are
  row-major: element `(i, j)` of `A` is `A.d_data[i * A.cols + j]`.
* A C++ member that writes through a destination pointer returns the new destination.
* `THROW_IF`/`THROW` become `Except.error`; so do an `assert` that does not hold and the use of
  a pointer that was never assigned.
-/

namespace Sqaod

open Finset

/-- Ways a DeviceMath call ends without a result. -/
inductive Err where
  /-- raised by `THROW_IF` on operand shapes -/
  | dimensionMismatch
  /-- raised by `THROW("Unknown matrix op.")` -/
  | invalidArgument
  /-- an `assert` that does not hold -/
  | assertion
  /-- use of a pointer that was declared and never assigned -/
  | uninitialized
  /-- a state-machine precondition of the annealer is not met -/
  | notReady
  deriving DecidableEq, Repr

/-- Transpose flag of a matrix operand. -/
inductive MatrixOp where
  | opNone
  | opTranspose
  deriving DecidableEq, Repr

/-- Axis of a batched operation; `opOther` stands for any other enumerator value. -/
inductive BatchOp where
  | opRowwise
  | opColwise
  | opOther (v : Nat)
  deriving DecidableEq, Repr

/-- The shape `sqaod::Dim`. -/
structure Dim where
  rows : Nat
  cols : Nat
  deriving DecidableEq, Repr

/-- The object `DeviceMatrixType<real>`: shape fields and the device buffer. -/
structure DeviceMatrix (R : Type) where
  rows : Nat
  cols : Nat
  d_data : List R
  deriving DecidableEq, Repr

/-- The object `DeviceVectorType<real>`. -/
structure DeviceVector (R : Type) where
  size : Nat
  d_data : List R
  deriving DecidableEq, Repr

/-- The object `DeviceScalarType<real>`: a buffer of one element. -/
structure DeviceScalar (R : Type) where
  d_data : List R
  deriving DecidableEq, Repr

section Model

variable {R : Type} [CommRing R]

/-- Read `d_data[i]`.  A read past the end of the buffer is undefined in C++; it yields `0` here
and no theorem below depends on such a read. -/
def rd (b : List R) (i : Nat) : R := b.getD i 0

/-- Shape `A.dim()`. -/
def DeviceMatrix.dim (A : DeviceMatrix R) : Dim := ⟨A.rows, A.cols⟩

/-- Element `(i, j)` of a row-major matrix. -/
def DeviceMatrix.at (A : DeviceMatrix R) (i j : Nat) : R := rd A.d_data (i * A.cols + j)

/-- Row `i` of a matrix as a vector object. -/
def DeviceMatrix.rowVec (A : DeviceMatrix R) (i : Nat) : DeviceVector R :=
  ⟨A.cols, (List.range A.cols).map fun j => A.at i j⟩

/-- The buffer of a matrix holds exactly `rows * cols` elements. -/
def DeviceMatrix.WF (A : DeviceMatrix R) : Prop := A.d_data.length = A.rows * A.cols

/-- The buffer of a vector holds exactly `size` elements. -/
def DeviceVector.WF (x : DeviceVector R) : Prop := x.d_data.length = x.size

/-- The buffer of a scalar holds one element. -/
def DeviceScalar.WF (s : DeviceScalar R) : Prop := s.d_data.length = 1

instance (A : DeviceMatrix R) : Decidable A.WF := by unfold DeviceMatrix.WF; infer_instance
instance (x : DeviceVector R) : Decidable x.WF := by unfold DeviceVector.WF; infer_instance
instance (s : DeviceScalar R) : Decidable s.WF := by unfold DeviceScalar.WF; infer_instance

/-- Number of rows of `op(A)`. -/
def opRows (op : MatrixOp) (A : DeviceMatrix R) : Nat :=
  match op with
  | .opNone => A.rows
  | .opTranspose => A.cols

/-- Number of columns of `op(A)`. -/
def opCols (op : MatrixOp) (A : DeviceMatrix R) : Nat :=
  match op with
  | .opNone => A.cols
  | .opTranspose => A.rows

/-- Element `(i, j)` of `op(A)`. -/
def opAt (op : MatrixOp) (A : DeviceMatrix R) (i j : Nat) : R :=
  match op with
  | .opNone => A.at i j
  | .opTranspose => A.at j i

/-! ## Members declared in `DeviceMath.h` whose bodies are outside the source files -/

namespace Kernel

/-- Modelled from the spec: the raw-pointer member `scale(d_y, alpha, d_x, addAssignFactor)`
(missing: its body). It performs `y = alpha·x + addFactor·y`; it is given no length and is the
member the `DeviceScalar` overload runs, so it updates the one element each pointer addresses. -/
def scale (d_y : List R) (alpha : R) (d_x : List R) (addAssignFactor : R) : List R :=
  d_y.set 0 (alpha * rd d_x 0 + addAssignFactor * rd d_y 0)

/-- Modelled from the spec: the raw-pointer member `sum(d_dst, alpha, d_x, size, addAssignFactor)`
(missing: its body), the reduction `*d_dst = alpha·Σ_{i<size} d_x[i] + addAssignFactor·*d_dst`. -/
def sum (d_dst : List R) (alpha : R) (d_x : List R) (size : Nat) (addAssignFactor : R) : List R :=
  d_dst.set 0 (alpha * (∑ i ∈ range size, rd d_x i) + addAssignFactor * rd d_dst 0)

/-- Modelled from the spec: the raw-pointer member `sumBatched(d_x, alpha, d_A, size, nBatch)`
(missing: its body), the per-row reduction of `nBatch` consecutive rows of `size` elements:
`d_x[i] = alpha·Σ_{j<size} d_A[i*size + j]` for `i < nBatch`. -/
def sumBatched (d_x : List R) (alpha : R) (d_A : List R) (size nBatch : Nat) : List R :=
  (List.range d_x.length).map fun i =>
    if i < nBatch then alpha * (∑ j ∈ range size, rd d_A (i * size + j)) else rd d_x i

/-- Modelled from the spec: the raw-pointer member
`dot(d_c, alpha, d_x, d_y, size, addAssignFactor)` (missing: its body), the inner product
`*d_c = alpha·Σ_{j<size} d_x[j]·d_y[j] + addAssignFactor·*d_c`. -/
def dot (d_c : List R) (alpha : R) (d_x d_y : List R) (size : Nat) (addAssignFactor : R) :
    List R :=
  d_c.set 0 (alpha * (∑ j ∈ range size, rd d_x j * rd d_y j) + addAssignFactor * rd d_c 0)

/-- Modelled from the spec: the raw-pointer member
`dotBatched(d_z, alpha, d_x, d_y, size, nBatch, addAssignFactor)` (missing: its body), which
treats each of `nBatch` consecutive rows of `size` elements of the two buffers as a vector pair:
`d_z[i] = alpha·Σ_{j<size} d_x[i*size+j]·d_y[i*size+j] + addAssignFactor·d_z[i]`. -/
def dotBatched (d_z : List R) (alpha : R) (d_x d_y : List R) (size nBatch : Nat)
    (addAssignFactor : R) : List R :=
  (List.range d_z.length).map fun i =>
    if i < nBatch then
      alpha * (∑ j ∈ range size, rd d_x (i * size + j) * rd d_y (i * size + j))
        + addAssignFactor * rd d_z i
    else rd d_z i

/-- Modelled from the spec: the raw-pointer member
`scaleBroadcastVector(d_A, alpha, d_x, size, nBatch, addAssignFactor)` (missing: its body; the
order `size`, `nBatch` is the one of the sibling raw members), which broadcasts a vector of
`size` elements over `nBatch` consecutive rows:
`d_A[b*size + i] = alpha·d_x[i] + addAssignFactor·d_A[b*size + i]`. -/
def scaleBroadcastVector (d_A : List R) (alpha : R) (d_x : List R) (size nBatch : Nat)
    (addAssignFactor : R) : List R :=
  (List.range d_A.length).map fun k =>
    if k < nBatch * size then alpha * rd d_x (k % size) + addAssignFactor * rd d_A k
    else rd d_A k

/-- Modelled from the spec: the raw-pointer member
`scaleBroadcastScalars(d_A, alpha, d_x, size, nBatch, addAssignFactor)` (missing: its body; the
order `size`, `nBatch` is the one of the sibling raw members), which broadcasts one scalar per
row over `nBatch` consecutive rows of `size` elements:
`d_A[b*size + i] = alpha·d_x[b] + addAssignFactor·d_A[b*size + i]`. -/
def scaleBroadcastScalars (d_A : List R) (alpha : R) (d_x : List R) (size nBatch : Nat)
    (addAssignFactor : R) : List R :=
  (List.range d_A.length).map fun k =>
    if k < nBatch * size then alpha * rd d_x (k / size) + addAssignFactor * rd d_A k
    else rd d_A k

/-- Modelled from the spec: the raw-pointer member
`sumGather(d_dst, alpha, d_x, size, stride, offset)` (missing: its body), the reduction over
`size` elements taken every `stride` elements from `offset`:
`*d_dst = alpha·Σ_{i<size} d_x[offset + i*stride]`. -/
def sumGather (d_dst : List R) (alpha : R) (d_x : List R) (size stride offset : Nat) : List R :=
  d_dst.set 0 (alpha * (∑ i ∈ range size, rd d_x (offset + i * stride)))

end Kernel

/-- Modelled from the spec: the copy functor call `devCopy_(A, v, size, stride, offset)`
(missing: `DeviceCopy`), which stores the value `v` in `size` elements of the buffer of `A`,
taken every `stride` elements from `offset`: `A->d_data[offset + i*stride] = v` for `i < size`. -/
def devCopy_ (A : DeviceMatrix R) (v : R) (size stride offset : Nat) : DeviceMatrix R :=
  { A with
    d_data := (List.range A.d_data.length).map fun k =>
      if offset ≤ k ∧ (k - offset) % stride = 0 ∧ (k - offset) / stride < size then v
      else rd A.d_data k }

/-- Modelled from the spec: `tempDeviceMatrix(rows, cols)` (missing: the scratch pool), a scratch
matrix of the requested shape; its contents are unspecified and stand as zeros. -/
def tempDeviceMatrix (rows cols : Nat) : DeviceMatrix R :=
  ⟨rows, cols, List.replicate (rows * cols) 0⟩

/-- Modelled from the spec: `tempDeviceMatrix(dim)`, the same allocation from a `Dim`. -/
def tempDeviceMatrixDim (dim : Dim) : DeviceMatrix R := tempDeviceMatrix dim.rows dim.cols

/-- Modelled from the spec: `tempDeviceVector(size)` (missing: the scratch pool). -/
def tempDeviceVector (size : Nat) : DeviceVector R := ⟨size, List.replicate size 0⟩

/-- Modelled from the spec: `deviceConst(c)` (missing: the constant pool), a device scalar
holding `c`. -/
def deviceConst (c : R) : DeviceScalar R := ⟨[c]⟩

/-- Modelled from the spec: `d_zero()`, the device constant 0. -/
def d_zero : DeviceScalar R := deviceConst 0

/-- Modelled from the spec: `d_one()`, the device constant 1. -/
def d_one : DeviceScalar R := deviceConst 1

/-- Modelled from the spec: `transpose(dAt, A)` (missing: its body), a real copy and not a view:
after the call the destination is the matrix `Aᵗ`, of shape `A.cols × A.rows`, its elements
stored in row-major order in the buffer of the destination,
`dAt->d_data[j * A.rows + i] = A[i][j]`. -/
def transpose (dAt : DeviceMatrix R) (A : DeviceMatrix R) : DeviceMatrix R :=
  { rows := A.cols
    cols := A.rows
    d_data := (List.range dAt.d_data.length).map fun k =>
      if k < A.rows * A.cols then A.at (k % A.rows) (k / A.rows) else rd dAt.d_data k }

/-- Modelled from the spec: `getProductShape(A, opA, B, opB)` (missing: its body), the shape of
the product `op(A)·op(B)`. -/
def getProductShape (A : DeviceMatrix R) (opA : MatrixOp) (B : DeviceMatrix R) (opB : MatrixOp) :
    Dim :=
  ⟨opRows opA A, opCols opB B⟩

/-- Modelled from the spec: `gemv(op, d_alpha, A, x, d_beta, y)` (missing: its body), the
generalized affine matrix-vector product `y = α·op(A)·x + β·y`; incompatible operand shapes are a
dimension mismatch. -/
def gemv (op : MatrixOp) (d_alpha : DeviceScalar R) (A : DeviceMatrix R) (x : DeviceVector R)
    (d_beta : DeviceScalar R) (y : DeviceVector R) : Except Err (DeviceVector R) :=
  if opCols op A ≠ x.size ∨ opRows op A ≠ y.size then .error .dimensionMismatch
  else .ok { y with
    d_data := (List.range y.d_data.length).map fun i =>
      if i < y.size then
        rd d_alpha.d_data 0 * (∑ j ∈ range x.size, opAt op A i j * rd x.d_data j)
          + rd d_beta.d_data 0 * rd y.d_data i
      else rd y.d_data i }

/-- Modelled from the spec: `gemm(opA, opB, d_alpha, A, B, d_beta, C)` (missing: its body), the
generalized affine product `C = α·op(A)·op(B) + β·C` on row-major buffers; incompatible operand
shapes are a dimension mismatch. -/
def gemm (opA opB : MatrixOp) (d_alpha : DeviceScalar R) (A B : DeviceMatrix R)
    (d_beta : DeviceScalar R) (C : DeviceMatrix R) : Except Err (DeviceMatrix R) :=
  if opCols opA A ≠ opRows opB B ∨ C.rows ≠ opRows opA A ∨ C.cols ≠ opCols opB B then
    .error .dimensionMismatch
  else .ok { C with
    d_data := (List.range C.d_data.length).map fun k =>
      if k < C.rows * C.cols then
        rd d_alpha.d_data 0
            * (∑ l ∈ range (opCols opA A), opAt opA A (k / C.cols) l * opAt opB B l (k % C.cols))
          + rd d_beta.d_data 0 * rd C.d_data k
      else rd C.d_data k }

/-! ## The members defined in `DeviceMath.cpp` -/

/-- Member `setToDiagonals(DeviceMatrix *A, v)`, DeviceMath.cpp:5-9: the stride handed to the copy is
`A->rows + 1`. -/
def setToDiagonals (A : DeviceMatrix R) (v : R) : DeviceMatrix R :=
  let size := Nat.min A.rows A.cols
  devCopy_ A v size (A.rows + 1) 0

/-- Member `scale(DeviceScalar *y, alpha, x, addAssignFactor)`, DeviceMath.cpp:11-15. -/
def scaleScalar (y : DeviceScalar R) (alpha : R) (x : DeviceScalar R) (addAssignFactor : R) :
    DeviceScalar R :=
  { y with d_data := Kernel.scale y.d_data alpha x.d_data addAssignFactor }

/-- Member `scale(DeviceVector *y, alpha, x, addAssignFactor)`, DeviceMath.cpp:17-22. -/
def scale (y : DeviceVector R) (alpha : R) (x : DeviceVector R) (addAssignFactor : R) :
    Except Err (DeviceVector R) :=
  if y.size ≠ x.size then .error .dimensionMismatch
  else .ok { y with d_data := Kernel.scale y.d_data alpha x.d_data addAssignFactor }

/-- Member `scaleBroadcast(DeviceMatrix *A, alpha, const DeviceVector &x, op, addAssignFactor)`,
DeviceMath.cpp:30-44.  Both raw calls receive `x.size` and `A->cols`. -/
def scaleBroadcast (A : DeviceMatrix R) (alpha : R) (x : DeviceVector R) (op : BatchOp)
    (addAssignFactor : R) : Except Err (DeviceMatrix R) :=
  match op with
  | .opRowwise =>
    if A.cols ≠ x.size then .error .dimensionMismatch
    else .ok { A with
      d_data := Kernel.scaleBroadcastVector A.d_data alpha x.d_data x.size A.cols
        addAssignFactor }
  | .opColwise =>
    if A.rows ≠ x.size then .error .dimensionMismatch
    else .ok { A with
      d_data := Kernel.scaleBroadcastScalars A.d_data alpha x.d_data x.size A.cols
        addAssignFactor }
  | .opOther _ => .error .invalidArgument

/-- Member `sum(DeviceScalar *s, alpha, const DeviceVector &x, addAssignFactor)`, DeviceMath.cpp:46-50. -/
def sum (s : DeviceScalar R) (alpha : R) (x : DeviceVector R) (addAssignFactor : R) :
    DeviceScalar R :=
  { s with d_data := Kernel.sum s.d_data alpha x.d_data x.size addAssignFactor }

/-- Member `sumDiagonals(DeviceScalar *s, dmat)`, DeviceMath.cpp:58-62: the stride handed to the
gather is `dmat.cols + 1`. -/
def sumDiagonals (s : DeviceScalar R) (dmat : DeviceMatrix R) : DeviceScalar R :=
  let nElms := Nat.min dmat.rows dmat.cols
  { s with d_data := Kernel.sumGather s.d_data 1 dmat.d_data nElms (dmat.cols + 1) 0 }

/-- Member `sumBatched(DeviceVector *vec, alpha, A, op)`, DeviceMath.cpp:64-78.  The raw call receives
the literal `1.` as its scale. -/
def sumBatched (vec : DeviceVector R) (alpha : R) (A : DeviceMatrix R) (op : BatchOp) :
    Except Err (DeviceVector R) :=
  let _ := alpha
  let dmat : Except Err (DeviceMatrix R) :=
    match op with
    | .opColwise => .ok (transpose (tempDeviceMatrixDim A.dim) A)
    | .opRowwise => .ok A
    | .opOther _ => .error .assertion
  match dmat with
  | .error e => .error e
  | .ok dmat =>
    .ok { vec with d_data := Kernel.sumBatched vec.d_data 1 dmat.d_data dmat.cols dmat.rows }

/-- Member `dot(DeviceScalar *z, alpha, x, y, addAssignFactor)`, DeviceMath.cpp:80-86. -/
def dot (z : DeviceScalar R) (alpha : R) (x y : DeviceVector R) (addAssignFactor : R) :
    Except Err (DeviceScalar R) :=
  if x.size ≠ y.size then .error .dimensionMismatch
  else .ok { z with d_data := Kernel.dot z.d_data alpha x.d_data y.d_data x.size addAssignFactor }

/-- Member `dotBatched(DeviceVector *z, alpha, A, opA, B, opB, addAssignFactor)`, DeviceMath.cpp:88-115.
The pointer pair `(dMat0, dMat1)` is declared without a value (`none`); the branch for
`opB == opTranspose` transposes `A` into the scratch matrix allocated for `B` and assigns it to
`dMat0`. -/
def dotBatched (z : DeviceVector R) (alpha : R) (A : DeviceMatrix R) (opA : MatrixOp)
    (B : DeviceMatrix R) (opB : MatrixOp) (addAssignFactor : R) : Except Err (DeviceVector R) :=
  let ptrs : Option (DeviceMatrix R) × Option (DeviceMatrix R) := (none, none)
  let ptrs : Option (DeviceMatrix R) × Option (DeviceMatrix R) :=
    match opA with
    | .opTranspose => (some (transpose (tempDeviceMatrix A.rows A.cols) A), ptrs.2)
    | .opNone => (some A, ptrs.2)
  let ptrs : Option (DeviceMatrix R) × Option (DeviceMatrix R) :=
    match opB with
    | .opTranspose => (some (transpose (tempDeviceMatrix B.rows B.cols) A), ptrs.2)
    | .opNone => (ptrs.1, some B)
  match ptrs with
  | (some dMat0, some dMat1) =>
    .ok { z with
      d_data := Kernel.dotBatched z.d_data alpha dMat0.d_data dMat1.d_data dMat0.cols dMat0.rows
        addAssignFactor }
  | _ => .error .uninitialized

/-- Member `mvProduct(DeviceVector *y, alpha, A, opA, x)`, DeviceMath.cpp:117-122. -/
def mvProduct (y : DeviceVector R) (alpha : R) (A : DeviceMatrix R) (opA : MatrixOp)
    (x : DeviceVector R) : Except Err (DeviceVector R) :=
  let d_alpha := deviceConst alpha
  gemv opA d_alpha A x d_zero y

/-- Member `vmProduct(DeviceVector *y, alpha, x, A, opA, addAssignFactor)`, DeviceMath.cpp:124-132. -/
def vmProduct (y : DeviceVector R) (alpha : R) (x : DeviceVector R) (A : DeviceMatrix R)
    (opA : MatrixOp) (addAssignFactor : R) : Except Err (DeviceVector R) :=
  let d_alpha := deviceConst alpha
  let d_factor := deviceConst addAssignFactor
  let opA := if opA = .opNone then MatrixOp.opTranspose else MatrixOp.opNone
  gemv opA d_alpha A x d_factor y

/-- Member `mmProduct(DeviceMatrix *C, alpha, A, opA, B, opB)`, DeviceMath.cpp:134-140. -/
def mmProduct (C : DeviceMatrix R) (alpha : R) (A : DeviceMatrix R) (opA : MatrixOp)
    (B : DeviceMatrix R) (opB : MatrixOp) : Except Err (DeviceMatrix R) :=
  let d_alpha := deviceConst alpha
  gemm opA opB d_alpha A B d_zero C

/-- Member `vmvProduct(DeviceScalar *z, alpha, y, A, x)`, DeviceMath.cpp:142-149.  The call of `dot`
receives the literal `1.` as its scale and leaves `addAssignFactor` to its default, 0. -/
def vmvProduct (z : DeviceScalar R) (alpha : R) (y : DeviceVector R) (A : DeviceMatrix R)
    (x : DeviceVector R) : Except Err (DeviceScalar R) :=
  let _ := alpha
  let Ax : DeviceVector R := tempDeviceVector A.rows
  match gemv .opNone d_one A x d_zero Ax with
  | .error e => .error e
  | .ok Ax => dot z 1 y Ax 0

/-- Member `batchedVmvProduct(DeviceVector *z, alpha, y, A, x)`, DeviceMath.cpp:151-160.  The body never
mentions `y`; `dotBatched` is left its default `addAssignFactor`, 0. -/
def batchedVmvProduct (z : DeviceVector R) (alpha : R) (y : DeviceMatrix R) (A : DeviceMatrix R)
    (x : DeviceMatrix R) : Except Err (DeviceVector R) :=
  let _ := y
  let dim := getProductShape x .opNone A .opTranspose
  let Ax : DeviceMatrix R := tempDeviceMatrixDim dim
  match gemm .opTranspose .opNone d_one x A d_zero Ax with
  | .error e => .error e
  | .ok Ax => dotBatched z alpha Ax .opNone x .opNone 0

/-- Member `mmmProduct(DeviceMatrix *z, alpha, y, opy, A, opA, x, opx)`, DeviceMath.cpp:162-173. -/
def mmmProduct (z : DeviceMatrix R) (alpha : R) (y : DeviceMatrix R) (opy : MatrixOp)
    (A : DeviceMatrix R) (opA : MatrixOp) (x : DeviceMatrix R) (opx : MatrixOp) :
    Except Err (DeviceMatrix R) :=
  let d_alpha := deviceConst alpha
  let dimAx := getProductShape A opA x opx
  let Ax : DeviceMatrix R := tempDeviceMatrixDim dimAx
  match gemm opA opx d_one A x d_zero Ax with
  | .error e => .error e
  | .ok Ax => gemm opy .opNone d_alpha y Ax d_zero z

/-- Member `min(DeviceScalar *s, const DeviceMatrix &A)`, DeviceMath.cpp:175-178: the body is empty, the
call returns and `s` is as it was. -/
def min (s : DeviceScalar R) (A : DeviceMatrix R) : Except Err (DeviceScalar R) :=
  let _ := A
  .ok s

/-! ## What the specification says the operations compute -/

/-- The destination object after a call that writes through a pointer: the returned object, or
the object as it was when the call threw (in the members above every throw precedes the first
write). -/
def destAfter {α : Type} (old : α) (r : Except Err α) : α :=
  match r with
  | .ok v => v
  | .error _ => old

/-- The buffer the specification gives the matrix `scaleBroadcast` on an `R×C` matrix:
row-wise `A[i][j] = alpha·x[j] + addFactor·A[i][j]`, column-wise
`A[i][j] = alpha·x[i] + addFactor·A[i][j]`, for all `i < R`, `j < C`. -/
def scaleBroadcastSpec (A : DeviceMatrix R) (alpha : R) (x : DeviceVector R) (op : BatchOp)
    (addFactor : R) : List R :=
  (List.range (A.rows * A.cols)).map fun k =>
    match op with
    | .opRowwise => alpha * rd x.d_data (k % A.cols) + addFactor * A.at (k / A.cols) (k % A.cols)
    | .opColwise => alpha * rd x.d_data (k / A.cols) + addFactor * A.at (k / A.cols) (k % A.cols)
    | .opOther _ => rd A.d_data k

/-- The bilinear form of the specification, `alpha · (y_i)ᵗ · A · x_i`, for row `i` of the
operands `y` and `x` of `batchedVmvProduct`. -/
def batchedVmvSpec (alpha : R) (y A x : DeviceMatrix R) (i : Nat) : R :=
  alpha * ∑ j ∈ range A.rows, ∑ k ∈ range A.cols, y.at i j * A.at j k * x.at i k

/-- The value the specification gives entry `i` of `dotBatched`:
`alpha · <row i of op(A), row i of op(B)> + addAssignFactor · (old z[i])`. -/
def dotBatchedSpec (z : DeviceVector R) (alpha : R) (A : DeviceMatrix R) (opA : MatrixOp)
    (B : DeviceMatrix R) (opB : MatrixOp) (addAssignFactor : R) (i : Nat) : R :=
  alpha * (∑ j ∈ range (opCols opA A), opAt opA A i j * opAt opB B i j)
    + addAssignFactor * rd z.d_data i

/-- The matrix object holding `Aᵗ`. -/
def DeviceMatrix.transposed (A : DeviceMatrix R) : DeviceMatrix R :=
  ⟨A.cols, A.rows, (List.range (A.cols * A.rows)).map fun k => A.at (k % A.rows) (k / A.rows)⟩

/-- The destination buffer the specification gives the vector `scale`:
`y[i] = alpha·x[i] + addFactor·(old y[i])` for every `i < y.size`. -/
def scaleSpec (y : DeviceVector R) (alpha : R) (x : DeviceVector R) (addFactor : R) : List R :=
  (List.range y.size).map fun i => alpha * rd x.d_data i + addFactor * rd y.d_data i

/-- The opposite transpose flag. -/
def MatrixOp.opposite : MatrixOp → MatrixOp
  | .opNone => .opTranspose
  | .opTranspose => .opNone

/-- The bilinear form of the specification, `alpha · yᵗ · A · x`, of `vmvProduct`. -/
def vmvSpec (alpha : R) (y : DeviceVector R) (A : DeviceMatrix R) (x : DeviceVector R) : R :=
  alpha * ∑ i ∈ range A.rows, ∑ j ∈ range A.cols, rd y.d_data i * A.at i j * rd x.d_data j

end Model

/-! ## The annealer state flags, `enum AnnealerState` of `common/Solver.h`

The member `int annState_` holds a combination of these flags.  It is a `Nat` here, the
two's-complement bit pattern of the `int`, on which `&`, `|` and `^` act bit by bit. -/

/-- Enumerator `annNone = 0`. -/
def annNone : Nat := 0

/-- Enumerator `annRandSeedGiven = 1`. -/
def annRandSeedGiven : Nat := 1

/-- Enumerator `annProblemSet = 2`. -/
def annProblemSet : Nat := 2

/-- Enumerator `annInitialized = 4`. -/
def annInitialized : Nat := 4

/-- Enumerator `annQSet = 8`. -/
def annQSet : Nat := 8

/-- Enumerator `annQSetReady = (annProblemSet | annRandSeedGiven | annInitialized)`. -/
def annQSetReady : Nat := annProblemSet ||| annRandSeedGiven ||| annInitialized

/-- Enumerator `annNTrottersGiven = 32`. -/
def annNTrottersGiven : Nat := 32

/-- The test `(state & flags) == flags`: every bit of `flags` is set in `state`. -/
def hasFlag (state flags : Nat) : Prop := state &&& flags = flags

instance (state flags : Nat) : Decidable (hasFlag state flags) := by
  unfold hasFlag; infer_instance

/-! ## The annealer, `cuda/CUDADenseGraphAnnealer.h`

The header declares the class; the bodies of its members are outside the source files. -/

section Annealer

variable {R : Type} [CommRing R]

/-- The members of `CUDADenseGraphAnnealer<real>` that the state machine reads and writes:
`int annState_`, `int N_, m_` and the replica spin matrix `DeviceMatrix d_matq_`. -/
structure CUDADenseGraphAnnealer (R : Type) where
  annState_ : Nat
  N_ : Nat
  m_ : Nat
  d_matq_ : DeviceMatrix R
  deriving DecidableEq, Repr

/-- The object after a call of a member of the annealer, and the error the call reported. -/
structure Outcome (R : Type) where
  state : CUDADenseGraphAnnealer R
  error : Option Err
  deriving DecidableEq, Repr

/-- The statement `state &= ~flags` on a 32-bit `int`. -/
def clearFlags (state flags : Nat) : Nat := state &&& (4294967295 ^^^ flags)

namespace CUDADenseGraphAnnealer

/-- Modelled from the spec: the constructor (missing: its body); as in `Annealer()` and
`DenseGraphSolver()` of `Solver.h` the state is `annNone` and the sizes are 0. -/
def new : CUDADenseGraphAnnealer R := ⟨annNone, 0, 0, ⟨0, 0, []⟩⟩

/-- Modelled from the spec: `seed(value)` (missing: its body) sets `seeded` and forwards the
value to the random stream. -/
def seed (a : CUDADenseGraphAnnealer R) (value : Nat) : Outcome R :=
  let _ := value
  ⟨{ a with annState_ := a.annState_ ||| annRandSeedGiven }, none⟩

/-- Modelled from the spec: `setProblem(W, om)` (missing: its body) requires nothing, fails with
a dimension mismatch when `W` is not square, sets `problemSet` and clears `initialized` and
`spinsReady`. -/
def setProblem (a : CUDADenseGraphAnnealer R) (W : DeviceMatrix R) : Outcome R :=
  if W.rows ≠ W.cols then ⟨a, some .dimensionMismatch⟩
  else
    ⟨{ a with
        N_ := W.rows
        annState_ := clearFlags (a.annState_ ||| annProblemSet) (annInitialized ||| annQSet) },
      none⟩

/-- Modelled from the spec: `setNumTrotters(P)` (missing: its body) sets `trottersSet` and clears
`initialized` and `spinsReady` if `P` differs from the value configured before. -/
def setNumTrotters (a : CUDADenseGraphAnnealer R) (P : Nat) : Outcome R :=
  let state := a.annState_ ||| annNTrottersGiven
  ⟨{ a with
      m_ := P
      annState_ := if P ≠ a.m_ then clearFlags state (annInitialized ||| annQSet) else state },
    none⟩

/-- Modelled from the spec: `initAnneal()` (missing: its body) requires
`seeded ∧ problemSet ∧ trottersSet`, allocates the `P×N` replica spin matrix and sets
`initialized`; it fails with NotReady if the preconditions are unmet. -/
def initAnneal (a : CUDADenseGraphAnnealer R) : Outcome R :=
  if hasFlag a.annState_ annRandSeedGiven ∧ hasFlag a.annState_ annProblemSet
      ∧ hasFlag a.annState_ annNTrottersGiven then
    ⟨{ a with
        d_matq_ := tempDeviceMatrix a.m_ a.N_
        annState_ := a.annState_ ||| annInitialized }, none⟩
  else ⟨a, some .notReady⟩

/-- Modelled from the spec: `randomize_q()` (missing: its body) requires `initialized`, fills the
replica spin matrix with the values drawn from the random stream, here `draws`, and sets
`spinsReady`. -/
def randomize_q (a : CUDADenseGraphAnnealer R) (draws : List R) : Outcome R :=
  if hasFlag a.annState_ annInitialized then
    ⟨{ a with
        d_matq_ := ⟨a.m_, a.N_, (List.range (a.m_ * a.N_)).map fun k => rd draws k⟩
        annState_ := a.annState_ ||| annQSet }, none⟩
  else ⟨a, some .notReady⟩

/-- Modelled from the spec: `set_x(bits)` (missing: its body) requires `initialized`, broadcasts
the given spin configuration to every replica and sets `spinsReady`. -/
def set_x (a : CUDADenseGraphAnnealer R) (x : List R) : Outcome R :=
  if hasFlag a.annState_ annInitialized then
    ⟨{ a with
        d_matq_ := ⟨a.m_, a.N_, (List.range (a.m_ * a.N_)).map fun k => rd x (k % a.N_)⟩
        annState_ := a.annState_ ||| annQSet }, none⟩
  else ⟨a, some .notReady⟩

/-- Modelled from the spec: `annealOneStep(G, kT)` (missing: its body) requires `spinsReady` and
fails with NotReady otherwise; the Monte-Carlo sweep it then applies in place to the replica spin
matrix is the parameter `sweep`. -/
def annealOneStep (sweep : DeviceMatrix R → R → R → DeviceMatrix R)
    (a : CUDADenseGraphAnnealer R) (G kT : R) : Outcome R :=
  if hasFlag a.annState_ annQSet then ⟨{ a with d_matq_ := sweep a.d_matq_ G kT }, none⟩
  else ⟨a, some .notReady⟩

/-- Modelled from the spec: `calculate_E()` (missing: its body) requires `spinsReady` and has no
effect on the spin state. -/
def calculate_E (a : CUDADenseGraphAnnealer R) : Outcome R :=
  if hasFlag a.annState_ annQSet then ⟨a, none⟩ else ⟨a, some .notReady⟩

/-- Modelled from the spec: `finAnneal()` (missing: its body) releases the replica state and
clears `spinsReady` and `initialized`. -/
def finAnneal (a : CUDADenseGraphAnnealer R) : Outcome R :=
  ⟨{ a with
      d_matq_ := ⟨0, 0, []⟩
      annState_ := clearFlags a.annState_ (annInitialized ||| annQSet) }, none⟩

end CUDADenseGraphAnnealer

/-- A call of one member of the annealer, with its arguments. -/
inductive Call (R : Type) where
  | seed (value : Nat)
  | setProblem (W : DeviceMatrix R)
  | setNumTrotters (P : Nat)
  | initAnneal
  | randomize_q (draws : List R)
  | set_x (x : List R)
  | annealOneStep (G kT : R)
  | calculate_E
  | finAnneal

/-- The outcome of one call on the object `a`. -/
def perform (sweep : DeviceMatrix R → R → R → DeviceMatrix R) (a : CUDADenseGraphAnnealer R) :
    Call R → Outcome R
  | .seed value => a.seed value
  | .setProblem W => a.setProblem W
  | .setNumTrotters P => a.setNumTrotters P
  | .initAnneal => a.initAnneal
  | .randomize_q draws => a.randomize_q draws
  | .set_x x => a.set_x x
  | .annealOneStep G kT => a.annealOneStep sweep G kT
  | .calculate_E => a.calculate_E
  | .finAnneal => a.finAnneal

/-- The object after a sequence of calls, whether or not some of them reported an error. -/
def performAll (sweep : DeviceMatrix R → R → R → DeviceMatrix R)
    (a : CUDADenseGraphAnnealer R) (calls : List (Call R)) : CUDADenseGraphAnnealer R :=
  calls.foldl (fun b c => (perform sweep b c).state) a

end Annealer

/-! ## Reading and writing buffers -/

section Lemmas

variable {R : Type} [CommRing R]

theorem rd_map_range (f : Nat → R) {n k : Nat} (h : k < n) :
    rd ((List.range n).map f) k = f k := by
  simp [rd, List.getD_eq_getElem?_getD, List.getElem?_map, List.getElem?_range h]

theorem rd_singleton (v : R) : rd [v] 0 = v := by
  simp [rd]

theorem rd_set_zero (b : List R) (v : R) (h : 0 < b.length) : rd (b.set 0 v) 0 = v := by
  cases b with
  | nil => simp at h
  | cons a t => simp [rd]

theorem rowVec_rd (A : DeviceMatrix R) (i : Nat) {j : Nat} (h : j < A.cols) :
    rd (A.rowVec i).d_data j = A.at i j := by
  unfold DeviceMatrix.rowVec
  exact rd_map_range (fun j => A.at i j) h

theorem div_of_flat {n : Nat} (i : Nat) {j : Nat} (h : j < n) : (i * n + j) / n = i := by
  have hn : 0 < n := Nat.lt_of_le_of_lt (Nat.zero_le j) h
  rw [Nat.mul_comm, Nat.mul_add_div hn, Nat.div_eq_of_lt h, Nat.add_zero]

theorem mod_of_flat {n : Nat} (i : Nat) {j : Nat} (h : j < n) : (i * n + j) % n = j := by
  rw [Nat.mul_comm, Nat.mul_add_mod, Nat.mod_eq_of_lt h]

theorem flat_lt {m n i j : Nat} (hi : i < m) (hj : j < n) : i * n + j < m * n := by
  calc i * n + j < i * n + n := Nat.add_lt_add_left hj _
    _ = (i + 1) * n := by ring
    _ ≤ m * n := Nat.mul_le_mul_right n hi

theorem list_eq_of_rd {a b : List R} (hlen : a.length = b.length)
    (h : ∀ i, i < a.length → rd a i = rd b i) : a = b := by
  apply List.ext_getElem hlen
  intro i h1 h2
  have := h i h1
  simpa [rd, List.getD_eq_getElem?_getD, List.getElem?_eq_getElem h1,
    List.getElem?_eq_getElem h2] using this

theorem opAt_flip (op : MatrixOp) (A : DeviceMatrix R) (i j : Nat) :
    opAt (if op = .opNone then MatrixOp.opTranspose else MatrixOp.opNone) A i j
      = opAt op A j i := by
  cases op <;> simp [opAt]

omit [CommRing R] in
theorem opRows_flip (op : MatrixOp) (A : DeviceMatrix R) :
    opRows (if op = .opNone then MatrixOp.opTranspose else MatrixOp.opNone) A = opCols op A := by
  cases op <;> simp [opRows, opCols]

omit [CommRing R] in
theorem opCols_flip (op : MatrixOp) (A : DeviceMatrix R) :
    opCols (if op = .opNone then MatrixOp.opTranspose else MatrixOp.opNone) A = opRows op A := by
  cases op <;> simp [opRows, opCols]

theorem rd_deviceConst (c : R) : rd (deviceConst c).d_data 0 = c := rfl

theorem rd_d_zero : rd (d_zero : DeviceScalar R).d_data 0 = 0 := rfl

theorem rd_d_one : rd (d_one : DeviceScalar R).d_data 0 = 1 := rfl

theorem tempDeviceMatrix_WF (rows cols : Nat) : (tempDeviceMatrix rows cols : DeviceMatrix R).WF := by
  simp [DeviceMatrix.WF, tempDeviceMatrix]

theorem gemv_ok (op : MatrixOp) (a b : DeviceScalar R) (A : DeviceMatrix R)
    (x y : DeviceVector R) (h1 : opCols op A = x.size) (h2 : opRows op A = y.size) :
    gemv op a A x b y = .ok { y with
      d_data := (List.range y.d_data.length).map fun i =>
        if i < y.size then
          rd a.d_data 0 * (∑ j ∈ range x.size, opAt op A i j * rd x.d_data j)
            + rd b.d_data 0 * rd y.d_data i
        else rd y.d_data i } := by
  unfold gemv
  rw [if_neg]
  rintro (h | h)
  · exact h h1
  · exact h h2

/-- What a conformable `gemv` call returns: the destination keeps its size and every entry is
`α·Σ_j op(A)[i][j]·x[j] + β·y[i]`. -/
theorem gemv_spec (op : MatrixOp) (a b : DeviceScalar R) (A : DeviceMatrix R)
    (x y : DeviceVector R) (h1 : opCols op A = x.size) (h2 : opRows op A = y.size)
    (hy : y.WF) :
    ∃ y2, gemv op a A x b y = .ok y2 ∧ y2.size = y.size ∧ y2.WF ∧
      ∀ i, i < y.size → rd y2.d_data i
        = rd a.d_data 0 * (∑ j ∈ range x.size, opAt op A i j * rd x.d_data j)
          + rd b.d_data 0 * rd y.d_data i := by
  refine ⟨_, gemv_ok op a b A x y h1 h2, rfl, ?_, ?_⟩
  · simpa [DeviceVector.WF] using hy
  · intro i hi
    have hlen : i < y.d_data.length := by rw [hy]; exact hi
    simp only []
    rw [rd_map_range _ hlen, if_pos hi]

theorem gemm_ok (opA opB : MatrixOp) (a b : DeviceScalar R) (A B C : DeviceMatrix R)
    (h1 : opCols opA A = opRows opB B) (h2 : C.rows = opRows opA A)
    (h3 : C.cols = opCols opB B) :
    gemm opA opB a A B b C = .ok { C with
      d_data := (List.range C.d_data.length).map fun k =>
        if k < C.rows * C.cols then
          rd a.d_data 0
              * (∑ l ∈ range (opCols opA A),
                  opAt opA A (k / C.cols) l * opAt opB B l (k % C.cols))
            + rd b.d_data 0 * rd C.d_data k
        else rd C.d_data k } := by
  unfold gemm
  rw [if_neg]
  rintro (h | h | h)
  · exact h h1
  · exact h h2
  · exact h h3

/-- What a conformable `gemm` call returns: the destination keeps its shape and every element is
`α·Σ_l op(A)[i][l]·op(B)[l][j] + β·C[i][j]`. -/
theorem gemm_spec (opA opB : MatrixOp) (a b : DeviceScalar R) (A B C : DeviceMatrix R)
    (h1 : opCols opA A = opRows opB B) (h2 : C.rows = opRows opA A)
    (h3 : C.cols = opCols opB B) (hC : C.WF) :
    ∃ C2, gemm opA opB a A B b C = .ok C2 ∧ C2.rows = C.rows ∧ C2.cols = C.cols ∧ C2.WF ∧
      ∀ i j, i < C.rows → j < C.cols → C2.at i j
        = rd a.d_data 0 * (∑ l ∈ range (opCols opA A), opAt opA A i l * opAt opB B l j)
          + rd b.d_data 0 * C.at i j := by
  refine ⟨_, gemm_ok opA opB a b A B C h1 h2 h3, rfl, rfl, ?_, ?_⟩
  · simpa [DeviceMatrix.WF] using hC
  · intro i j hi hj
    have hk : i * C.cols + j < C.d_data.length := by rw [hC]; exact flat_lt hi hj
    simp only [DeviceMatrix.at]
    rw [rd_map_range _ hk, if_pos (flat_lt hi hj), div_of_flat i hj, mod_of_flat i hj]

end Lemmas

/-! ## C1: batchedVmvProduct -/

/-- The result of `batchedVmvProduct` does not depend on its operand `y`. -/
theorem batchedVmvProduct_independent_of_y {R : Type} [CommRing R] (z : DeviceVector R)
    (alpha : R) (y y2 A x : DeviceMatrix R) :
    batchedVmvProduct z alpha y A x = batchedVmvProduct z alpha y2 A x := rfl

/-- C1: with `P = N = 1`, `y = [[0]]`, `A = [[1]]`, `x = [[1]]`, `alpha = 1`, the code stores 1 in
entry 0 of `z`, while `alpha · (y_0)ᵗ · A · x_0` is 0: the body never reads `y`. -/
theorem batchedVmvProduct_ignores_y :
    batchedVmvProduct (R := ℤ) ⟨1, [0]⟩ 1 ⟨1, 1, [0]⟩ ⟨1, 1, [1]⟩ ⟨1, 1, [1]⟩ = .ok ⟨1, [1]⟩ ∧
    batchedVmvSpec (R := ℤ) 1 ⟨1, 1, [0]⟩ ⟨1, 1, [1]⟩ ⟨1, 1, [1]⟩ 0 = 0 :=
  ⟨rfl, rfl⟩

/-! ## C2: dotBatched with a transposed operand -/

/-- Whenever `opB` is `opTranspose`, `dotBatched` reaches the raw call with `dMat1` never
assigned. -/
theorem dotBatched_opB_transpose {R : Type} [CommRing R] (z : DeviceVector R) (alpha : R)
    (A : DeviceMatrix R) (opA : MatrixOp) (B : DeviceMatrix R) (addAssignFactor : R) :
    dotBatched z alpha A opA B .opTranspose addAssignFactor = .error .uninitialized := by
  cases opA <;> rfl

/-- C2: with `A = B = [[1]]`, `opA = opNone`, `opB = opTranspose`, `z = [0]`, `alpha = 1`,
`addAssignFactor = 0`, the specified entry 0 is 1, and the code produces no vector at all: it
uses `dMat1`, which no branch assigned. -/
theorem dotBatched_transposeB_fails :
    dotBatched (R := ℤ) ⟨1, [0]⟩ 1 ⟨1, 1, [1]⟩ .opNone ⟨1, 1, [1]⟩ .opTranspose 0
      = .error .uninitialized ∧
    dotBatchedSpec (R := ℤ) ⟨1, [0]⟩ 1 ⟨1, 1, [1]⟩ .opNone ⟨1, 1, [1]⟩ .opTranspose 0 0 = 1 :=
  ⟨rfl, rfl⟩

/-! ## C3: dotBatched against dot, row by row -/

/-- C3: for `P×N` matrices `A`, `B` and a destination `z` of `P` entries, `dotBatched` with both
flags `opNone` and `dot` on row `i` of `A` and `B`, started on the scalar `z[i]`, both return,
and entry `i` of the batched result is the scalar `dot` stores, namely
`alpha · Σ_j A[i][j]·B[i][j] + addAssignFactor · z[i]`. -/
theorem dotBatched_eq_dot_rows {R : Type} [CommRing R] (P N : Nat) (z : DeviceVector R)
    (alpha : R) (A B : DeviceMatrix R) (addAssignFactor : R) (i : Nat)
    (hA : A.rows = P ∧ A.cols = N ∧ A.WF) (hB : B.rows = P ∧ B.cols = N ∧ B.WF)
    (hz : z.size = P ∧ z.WF) (hi : i < P) :
    ∃ z2 s2,
      dotBatched z alpha A .opNone B .opNone addAssignFactor = .ok z2 ∧
      dot ⟨[rd z.d_data i]⟩ alpha (A.rowVec i) (B.rowVec i) addAssignFactor = .ok s2 ∧
      rd z2.d_data i = rd s2.d_data 0 ∧
      rd s2.d_data 0
        = alpha * (∑ j ∈ range N, A.at i j * B.at i j) + addAssignFactor * rd z.d_data i := by
  obtain ⟨hAr, hAc, _⟩ := hA
  obtain ⟨_, hBc, _⟩ := hB
  obtain ⟨hzs, hzw⟩ := hz
  have hlen : i < z.d_data.length := by rw [hzw, hzs]; exact hi
  have hsz : (A.rowVec i).size = (B.rowVec i).size := by
    simp [DeviceMatrix.rowVec, hAc, hBc]
  have hdot : dot ⟨[rd z.d_data i]⟩ alpha (A.rowVec i) (B.rowVec i) addAssignFactor
      = .ok ⟨Kernel.dot [rd z.d_data i] alpha (A.rowVec i).d_data (B.rowVec i).d_data
          (A.rowVec i).size addAssignFactor⟩ := by
    unfold dot
    rw [if_neg (fun h => h hsz)]
  have hrow : rd (Kernel.dot [rd z.d_data i] alpha (A.rowVec i).d_data (B.rowVec i).d_data
        (A.rowVec i).size addAssignFactor) 0
      = alpha * (∑ j ∈ range N, A.at i j * B.at i j) + addAssignFactor * rd z.d_data i := by
    simp only [Kernel.dot]
    rw [rd_set_zero _ _ (by simp), rd_singleton]
    congr 2
    show ∑ j ∈ range A.cols, _ = _
    rw [hAc]
    apply Finset.sum_congr rfl
    intro j hj
    have hjN : j < N := Finset.mem_range.mp hj
    rw [rowVec_rd A i (by rw [hAc]; exact hjN), rowVec_rd B i (by rw [hBc]; exact hjN)]
  refine ⟨_, _, rfl, hdot, ?_, hrow⟩
  rw [hrow]
  simp only [Kernel.dotBatched]
  rw [rd_map_range _ hlen, if_pos (by rw [hAr]; exact hi), hAc]
  congr 2
  apply Finset.sum_congr rfl
  intro j _
  simp [DeviceMatrix.at, hAc, hBc]

/-- Witness of C3 on a `2×2` pair with `alpha = 2`, `addAssignFactor = 3`, row 1. -/
theorem dotBatched_eq_dot_rows_witness :
    ∃ z2 s2,
      dotBatched (R := ℤ) ⟨2, [5, 7]⟩ 2 ⟨2, 2, [1, 2, 3, 4]⟩ .opNone ⟨2, 2, [5, 6, 7, 8]⟩ .opNone 3
        = .ok z2 ∧
      dot ⟨[rd [5, 7] 1]⟩ 2 (DeviceMatrix.rowVec ⟨2, 2, [1, 2, 3, 4]⟩ 1)
        (DeviceMatrix.rowVec ⟨2, 2, [5, 6, 7, 8]⟩ 1) 3 = .ok s2 ∧
      rd z2.d_data 1 = rd s2.d_data 0 ∧
      rd s2.d_data 0
        = 2 * (∑ j ∈ Finset.range 2, DeviceMatrix.at (⟨2, 2, [1, 2, 3, 4]⟩ : DeviceMatrix ℤ) 1 j
            * DeviceMatrix.at (⟨2, 2, [5, 6, 7, 8]⟩ : DeviceMatrix ℤ) 1 j) + 3 * rd [5, 7] 1 :=
  dotBatched_eq_dot_rows 2 2 ⟨2, [5, 7]⟩ 2 ⟨2, 2, [1, 2, 3, 4]⟩ ⟨2, 2, [5, 6, 7, 8]⟩ 3 1
    ⟨rfl, rfl, rfl⟩ ⟨rfl, rfl, rfl⟩ ⟨rfl, rfl⟩ (by decide)

/-! ## C4, C5: sumBatched -/

/-- C4: with `alpha = 2` and the `1×1` matrix `[[1]]`, `sumBatched` row-wise stores 1, while `sum`
on row 0 with the same scale stores 2: `sumBatched` hands the raw call the literal `1.`. -/
theorem sumBatched_ignores_alpha :
    sumBatched (R := ℤ) ⟨1, [0]⟩ 2 ⟨1, 1, [1]⟩ .opRowwise = .ok ⟨1, [1]⟩ ∧
    sum (R := ℤ) ⟨[0]⟩ 2 (DeviceMatrix.rowVec ⟨1, 1, [1]⟩ 0) 0 = ⟨[2]⟩ :=
  ⟨rfl, rfl⟩

/-- The scratch matrix of the shape of `A`, once `A` is transposed into it, is the matrix
`Aᵗ`. -/
theorem transpose_temp_eq_transposed {R : Type} [CommRing R] (A : DeviceMatrix R) :
    transpose (tempDeviceMatrixDim A.dim) A = A.transposed := by
  unfold transpose DeviceMatrix.transposed tempDeviceMatrixDim tempDeviceMatrix DeviceMatrix.dim
  simp only [List.length_replicate, DeviceMatrix.mk.injEq, true_and]
  rw [Nat.mul_comm A.cols A.rows]
  apply List.map_congr_left
  intro k hk
  rw [if_pos (List.mem_range.mp hk)]

/-- C5: for every `R×C` matrix `A`, square or not, and a destination of `C` entries, the
column-wise `sumBatched` on `A` is the row-wise `sumBatched` on `Aᵗ`: both return the same
vector, of `C` entries, whose entry `j` is the reduction `Σ_i A[i][j]` of column `j` of `A`
(the reduction as `sumBatched` performs it, with the literal scale `1.` of its raw call). -/
theorem sumBatched_colwise_eq_rowwise_transposed {R : Type} [CommRing R] (Rr Cc : Nat)
    (vec : DeviceVector R) (alpha : R) (A : DeviceMatrix R)
    (hA : A.rows = Rr ∧ A.cols = Cc ∧ A.WF) (hv : vec.size = Cc ∧ vec.WF) :
    sumBatched vec alpha A .opColwise = sumBatched vec alpha A.transposed .opRowwise ∧
    ∃ v2, sumBatched vec alpha A .opColwise = .ok v2 ∧ v2.size = Cc ∧ v2.WF ∧
      ∀ j, j < Cc → rd v2.d_data j = ∑ i ∈ range Rr, A.at i j := by
  obtain ⟨hAr, hAc, _⟩ := hA
  obtain ⟨hvs, hvw⟩ := hv
  have hcol : sumBatched vec alpha A .opColwise
      = .ok ⟨vec.size, Kernel.sumBatched vec.d_data 1 A.transposed.d_data A.transposed.cols
          A.transposed.rows⟩ := by
    unfold sumBatched
    simp only [transpose_temp_eq_transposed]
  refine ⟨by rw [hcol]; rfl, _, hcol, hvs, ?_, ?_⟩
  · simpa [DeviceVector.WF, Kernel.sumBatched] using hvw
  · intro j hj
    have hlen : j < vec.d_data.length := by rw [hvw, hvs]; exact hj
    have hjc : j < A.cols := by rw [hAc]; exact hj
    simp only [Kernel.sumBatched, DeviceMatrix.transposed]
    rw [rd_map_range _ hlen, if_pos hjc, one_mul, hAr]
    apply Finset.sum_congr rfl
    intro i hi
    have hir : i < A.rows := by rw [hAr]; exact Finset.mem_range.mp hi
    rw [← hAr, rd_map_range _ (flat_lt hjc hir), mod_of_flat j hir, div_of_flat j hir]

/-- Witness of C5 on the `2×3` matrix `[[1, 2, 3], [4, 5, 6]]` with a destination of 3
entries. -/
theorem sumBatched_colwise_eq_rowwise_transposed_witness :
    sumBatched (R := ℤ) ⟨3, [0, 0, 0]⟩ 1 ⟨2, 3, [1, 2, 3, 4, 5, 6]⟩ .opColwise
      = sumBatched ⟨3, [0, 0, 0]⟩ 1 (DeviceMatrix.transposed ⟨2, 3, [1, 2, 3, 4, 5, 6]⟩)
          .opRowwise ∧
    ∃ v2, sumBatched (R := ℤ) ⟨3, [0, 0, 0]⟩ 1 ⟨2, 3, [1, 2, 3, 4, 5, 6]⟩ .opColwise = .ok v2 ∧
      v2.size = 3 ∧ v2.WF ∧
      ∀ j, j < 3 → rd v2.d_data j
        = ∑ i ∈ Finset.range 2, DeviceMatrix.at (⟨2, 3, [1, 2, 3, 4, 5, 6]⟩ : DeviceMatrix ℤ) i j :=
  sumBatched_colwise_eq_rowwise_transposed 2 3 ⟨3, [0, 0, 0]⟩ 1 ⟨2, 3, [1, 2, 3, 4, 5, 6]⟩
    ⟨rfl, rfl, rfl⟩ ⟨rfl, rfl⟩

/-- On the `2×3` matrix `[[1, 2, 3], [4, 5, 6]]` the column-wise call stores the column sums
`[5, 7, 9]`. -/
theorem sumBatched_colwise_example :
    sumBatched (R := ℤ) ⟨3, [0, 0, 0]⟩ 1 ⟨2, 3, [1, 2, 3, 4, 5, 6]⟩ .opColwise
      = .ok ⟨3, [5, 7, 9]⟩ := rfl

/-! ## C6: mmProduct against vmProduct, row by row -/

/-- C6: for a `P×K` matrix `A`, an operand `B` with `op(B)` of shape `K×M`, a `P×M` destination
`C` and a destination `y` of `M` entries, `mmProduct` with `opNone` on `A` and `vmProduct` on
row `i` of `A` with `addAssignFactor = 0` both return, and row `i` of the matrix is the vector. -/
theorem mmProduct_row_eq_vmProduct {R : Type} [CommRing R] (P K M : Nat) (C : DeviceMatrix R)
    (alpha : R) (A B : DeviceMatrix R) (opB : MatrixOp) (y : DeviceVector R) (i : Nat)
    (hA : A.rows = P ∧ A.cols = K ∧ A.WF)
    (hB : opRows opB B = K ∧ opCols opB B = M ∧ B.WF)
    (hC : C.rows = P ∧ C.cols = M ∧ C.WF) (hy : y.size = M ∧ y.WF) (hi : i < P) :
    ∃ C2 y2,
      mmProduct C alpha A .opNone B opB = .ok C2 ∧
      vmProduct y alpha (A.rowVec i) B opB 0 = .ok y2 ∧
      C2.rowVec i = y2 := by
  obtain ⟨hAr, hAc, _⟩ := hA
  obtain ⟨hBr, hBc, _⟩ := hB
  obtain ⟨hCr, hCc, hCw⟩ := hC
  obtain ⟨hys, hyw⟩ := hy
  obtain ⟨C2, hC2, _, hc, _, hat⟩ :=
    gemm_spec .opNone opB (deviceConst alpha) d_zero A B C
      (by show A.cols = _; rw [hAc, hBr]) (by show C.rows = A.rows; rw [hCr, hAr])
      (by rw [hCc, hBc]) hCw
  obtain ⟨y2, hy2, hs, hw, hrd⟩ :=
    gemv_spec (if opB = .opNone then MatrixOp.opTranspose else MatrixOp.opNone)
      (deviceConst alpha) (deviceConst 0) B (A.rowVec i) y
      (by rw [opCols_flip, hBr]; exact hAc.symm) (by rw [opRows_flip, hBc, hys]) hyw
  refine ⟨C2, y2, hC2, hy2, ?_⟩
  rcases y2 with ⟨ys, yd⟩
  simp only [DeviceVector.WF] at hw hs hrd
  simp only [DeviceMatrix.rowVec, DeviceVector.mk.injEq]
  refine ⟨by rw [hc, hCc, hs, hys], list_eq_of_rd (by simp [hw, hc, hCc, hs, hys]) ?_⟩
  intro j hj
  have hj2 : j < C2.cols := by simpa using hj
  have hjC : j < C.cols := by rw [← hc]; exact hj2
  rw [rd_map_range _ hj2, hat i j (by rw [hCr]; exact hi) hjC,
    hrd j (by rw [hys, ← hCc]; exact hjC), rd_deviceConst, rd_deviceConst, rd_d_zero,
    zero_mul, zero_mul]
  congr 2
  apply Finset.sum_congr rfl
  intro l hl
  have hlA : l < A.cols := Finset.mem_range.mp hl
  rw [opAt_flip, rowVec_rd A i hlA, mul_comm]
  rfl

/-- Witness of C6 on a `2×2` times `2×3` product with `B` passed transposed, row 1. -/
theorem mmProduct_row_eq_vmProduct_witness :
    ∃ C2 y2,
      mmProduct (R := ℤ) ⟨2, 3, [0, 0, 0, 0, 0, 0]⟩ 2 ⟨2, 2, [1, 2, 3, 4]⟩ .opNone
        ⟨3, 2, [1, 0, 0, 1, 1, 1]⟩ .opTranspose = .ok C2 ∧
      vmProduct ⟨3, [9, 9, 9]⟩ 2 (DeviceMatrix.rowVec ⟨2, 2, [1, 2, 3, 4]⟩ 1)
        ⟨3, 2, [1, 0, 0, 1, 1, 1]⟩ .opTranspose 0 = .ok y2 ∧
      C2.rowVec 1 = y2 :=
  mmProduct_row_eq_vmProduct 2 2 3 ⟨2, 3, [0, 0, 0, 0, 0, 0]⟩ 2 ⟨2, 2, [1, 2, 3, 4]⟩
    ⟨3, 2, [1, 0, 0, 1, 1, 1]⟩ .opTranspose ⟨3, [9, 9, 9]⟩ 1
    ⟨rfl, rfl, rfl⟩ ⟨rfl, rfl, rfl⟩ ⟨rfl, rfl, rfl⟩ ⟨rfl, rfl⟩ (by decide)

/-! ## C7: vmvProduct -/

/-- C7: with `alpha = 2`, `y = [1]`, `A = [[1]]`, `x = [1]` and `z` starting at 0, the code
stores 1 while `alpha · yᵗ·A·x` is 2: the call of `dot` is given the literal `1.`, not
`alpha`. -/
theorem vmvProduct_ignores_alpha :
    vmvProduct (R := ℤ) ⟨[0]⟩ 2 ⟨1, [1]⟩ ⟨1, 1, [1]⟩ ⟨1, [1]⟩ = .ok ⟨[1]⟩ ∧
    vmvSpec (R := ℤ) 2 ⟨1, [1]⟩ ⟨1, 1, [1]⟩ ⟨1, [1]⟩ = 2 :=
  ⟨rfl, rfl⟩

/-! ## C8: vmProduct -/

/-- C8: for `x` of as many entries as `op(A)` has rows and `y` of as many entries as `op(A)` has
columns, `vmProduct` returns, entry `j` of the destination becomes
`alpha · Σ_i x[i]·op(A)[i][j] + addAssignFactor · (old y[j])`, and with `addAssignFactor = 0` the
call is the call of `mvProduct` with the opposite flag on the same `A` and `x`. -/
theorem vmProduct_spec {R : Type} [CommRing R] (y : DeviceVector R) (alpha : R)
    (x : DeviceVector R) (A : DeviceMatrix R) (opA : MatrixOp) (addAssignFactor : R)
    (hx : x.size = opRows opA A ∧ x.WF) (hy : y.size = opCols opA A ∧ y.WF) (_hA : A.WF) :
    (∃ y2, vmProduct y alpha x A opA addAssignFactor = .ok y2 ∧ y2.size = y.size ∧ y2.WF ∧
      ∀ j, j < y.size → rd y2.d_data j
        = alpha * (∑ i ∈ range x.size, rd x.d_data i * opAt opA A i j)
          + addAssignFactor * rd y.d_data j) ∧
    vmProduct y alpha x A opA 0 = mvProduct y alpha A opA.opposite x := by
  constructor
  · obtain ⟨y2, hy2, hs, hw, hrd⟩ :=
      gemv_spec (if opA = .opNone then MatrixOp.opTranspose else MatrixOp.opNone)
        (deviceConst alpha) (deviceConst addAssignFactor) A x y
        (by rw [opCols_flip]; exact hx.1.symm) (by rw [opRows_flip]; exact hy.1.symm) hy.2
    refine ⟨y2, hy2, hs, hw, ?_⟩
    intro j hj
    rw [hrd j hj, rd_deviceConst, rd_deviceConst]
    congr 2
    apply Finset.sum_congr rfl
    intro i _
    rw [opAt_flip, mul_comm]
  · cases opA <;> rfl

/-- Witness of C8: a vector of 2 entries times a `2×3` matrix, accumulated with factor 5. -/
theorem vmProduct_spec_witness :
    (∃ y2, vmProduct (R := ℤ) ⟨3, [1, 1, 1]⟩ 2 ⟨2, [1, 2]⟩ ⟨2, 3, [1, 2, 3, 4, 5, 6]⟩ .opNone 5
        = .ok y2 ∧ y2.size = 3 ∧ y2.WF ∧
      ∀ j, j < 3 → rd y2.d_data j
        = 2 * (∑ i ∈ Finset.range 2,
            rd [1, 2] i * opAt .opNone (⟨2, 3, [1, 2, 3, 4, 5, 6]⟩ : DeviceMatrix ℤ) i j)
          + 5 * rd [1, 1, 1] j) ∧
    vmProduct (R := ℤ) ⟨3, [1, 1, 1]⟩ 2 ⟨2, [1, 2]⟩ ⟨2, 3, [1, 2, 3, 4, 5, 6]⟩ .opNone 0
      = mvProduct ⟨3, [1, 1, 1]⟩ 2 ⟨2, 3, [1, 2, 3, 4, 5, 6]⟩ MatrixOp.opNone.opposite
          ⟨2, [1, 2]⟩ :=
  vmProduct_spec ⟨3, [1, 1, 1]⟩ 2 ⟨2, [1, 2]⟩ ⟨2, 3, [1, 2, 3, 4, 5, 6]⟩ .opNone 5
    ⟨rfl, rfl⟩ ⟨rfl, rfl⟩ rfl

/-! ## C9: mmmProduct -/

/-- C9: for all three flags and conformable operands (`op(y)` has as many columns as `op(A)` has
rows, `op(A)` as many columns as `op(x)` has rows, and the destination `z` has the shape of the
triple product), the scratch matrix has the shape of `op(A)·op(x)`, the first product fills it
with `op(A)·op(x)`, and `mmmProduct` returns `z = alpha · op(y) · (op(A)·op(x))`. -/
theorem mmmProduct_spec {R : Type} [CommRing R] (z : DeviceMatrix R) (alpha : R)
    (y : DeviceMatrix R) (opy : MatrixOp) (A : DeviceMatrix R) (opA : MatrixOp)
    (x : DeviceMatrix R) (opx : MatrixOp)
    (hyA : opCols opy y = opRows opA A) (hAx : opCols opA A = opRows opx x)
    (hz : z.rows = opRows opy y ∧ z.cols = opCols opx x ∧ z.WF)
    (_hwf : y.WF ∧ A.WF ∧ x.WF) :
    (tempDeviceMatrixDim (getProductShape A opA x opx) : DeviceMatrix R).dim
      = ⟨opRows opA A, opCols opx x⟩ ∧
    ∃ Ax z2,
      gemm opA opx d_one A x d_zero (tempDeviceMatrixDim (getProductShape A opA x opx))
        = .ok Ax ∧
      (∀ k j, k < opRows opA A → j < opCols opx x →
        Ax.at k j = ∑ l ∈ range (opCols opA A), opAt opA A k l * opAt opx x l j) ∧
      mmmProduct z alpha y opy A opA x opx = .ok z2 ∧
      z2.rows = z.rows ∧ z2.cols = z.cols ∧ z2.WF ∧
      ∀ i j, i < z.rows → j < z.cols →
        z2.at i j = alpha * ∑ k ∈ range (opCols opy y),
          opAt opy y i k * ∑ l ∈ range (opCols opA A), opAt opA A k l * opAt opx x l j := by
  obtain ⟨hzr, hzc, hzw⟩ := hz
  refine ⟨rfl, ?_⟩
  obtain ⟨Ax, hAxok, hAr, hAc, hAw, hAat⟩ :=
    gemm_spec opA opx d_one d_zero A x
      (tempDeviceMatrixDim (getProductShape A opA x opx)) hAx rfl rfl
      (tempDeviceMatrix_WF _ _)
  have hAr2 : Ax.rows = opRows opA A := hAr
  have hAc2 : Ax.cols = opCols opx x := hAc
  have hAx_at : ∀ k j, k < opRows opA A → j < opCols opx x →
      Ax.at k j = ∑ l ∈ range (opCols opA A), opAt opA A k l * opAt opx x l j := by
    intro k j hk hj
    rw [hAat k j hk hj, rd_d_one, rd_d_zero, one_mul, zero_mul, add_zero]
  obtain ⟨z2, hz2, hr, hc, hw, hat⟩ :=
    gemm_spec opy .opNone (deviceConst alpha) d_zero y Ax z
      (by show _ = Ax.rows; rw [hAr2, hyA]) hzr (by show _ = Ax.cols; rw [hAc2, hzc]) hzw
  refine ⟨Ax, z2, hAxok, hAx_at, ?_, hr, hc, hw, ?_⟩
  · simp only [mmmProduct, hAxok]
    exact hz2
  · intro i j hi hj
    rw [hat i j hi hj, rd_deviceConst, rd_d_zero, zero_mul, add_zero]
    congr 1
    apply Finset.sum_congr rfl
    intro k hk
    have hk2 : k < opRows opA A := by rw [← hyA]; exact Finset.mem_range.mp hk
    show opAt opy y i k * Ax.at k j = _
    rw [hAx_at k j hk2 (by rw [← hzc]; exact hj)]

/-- Witness of C9: `y` is `1×2` passed as is, `A` is `3×2` passed transposed, `x` is `1×3`
passed transposed; the destination is `1×1`. -/
theorem mmmProduct_spec_witness :
    (tempDeviceMatrixDim (getProductShape (⟨3, 2, [1, 2, 3, 4, 5, 6]⟩ : DeviceMatrix ℤ)
        .opTranspose (⟨1, 3, [1, 0, 2]⟩ : DeviceMatrix ℤ) .opTranspose) : DeviceMatrix ℤ).dim
      = ⟨2, 1⟩ ∧
    (∃ z2, mmmProduct (R := ℤ) ⟨1, 1, [7]⟩ 2 ⟨1, 2, [1, 1]⟩ .opNone ⟨3, 2, [1, 2, 3, 4, 5, 6]⟩
        .opTranspose ⟨1, 3, [1, 0, 2]⟩ .opTranspose = .ok z2 ∧
      z2.at 0 0 = 2 * ∑ k ∈ Finset.range 2,
        opAt .opNone (⟨1, 2, [1, 1]⟩ : DeviceMatrix ℤ) 0 k * ∑ l ∈ Finset.range 3,
          opAt .opTranspose (⟨3, 2, [1, 2, 3, 4, 5, 6]⟩ : DeviceMatrix ℤ) k l
            * opAt .opTranspose (⟨1, 3, [1, 0, 2]⟩ : DeviceMatrix ℤ) l 0) ∧
    mmmProduct (R := ℤ) ⟨1, 1, [7]⟩ 2 ⟨1, 2, [1, 1]⟩ .opNone ⟨3, 2, [1, 2, 3, 4, 5, 6]⟩
      .opTranspose ⟨1, 3, [1, 0, 2]⟩ .opTranspose = .ok ⟨1, 1, [50]⟩ :=
  have h := mmmProduct_spec (R := ℤ) ⟨1, 1, [7]⟩ 2 ⟨1, 2, [1, 1]⟩ .opNone
    ⟨3, 2, [1, 2, 3, 4, 5, 6]⟩ .opTranspose ⟨1, 3, [1, 0, 2]⟩ .opTranspose rfl rfl
    ⟨rfl, rfl, rfl⟩ ⟨rfl, rfl, rfl⟩
  match h.2 with
  | ⟨_, z2, _, _, hz2, _, _, _, hat⟩ =>
    ⟨h.1, ⟨z2, hz2, hat 0 0 (by decide) (by decide)⟩, rfl⟩

/-! ## C10: scale on vectors -/

/-- The vector `scale` fails exactly when the two lengths differ. -/
theorem scale_error_iff {R : Type} [CommRing R] (y : DeviceVector R) (alpha : R)
    (x : DeviceVector R) (addAssignFactor : R) :
    scale y alpha x addAssignFactor = .error .dimensionMismatch ↔ y.size ≠ x.size := by
  unfold scale
  by_cases h : y.size = x.size <;> simp [h]

/-- When the lengths agree the vector `scale` returns the destination with element 0 rewritten
and every other element as it was. -/
theorem scale_touches_first_only {R : Type} [CommRing R] (y : DeviceVector R) (alpha : R)
    (x : DeviceVector R) (addAssignFactor : R) (h : y.size = x.size) :
    scale y alpha x addAssignFactor
      = .ok ⟨y.size, y.d_data.set 0 (alpha * rd x.d_data 0 + addAssignFactor * rd y.d_data 0)⟩ := by
  unfold scale
  rw [if_neg (fun hne => hne h)]
  rfl

/-- C10: with `y = [0, 0]`, `x = [1, 1]`, `alpha = 1`, `addFactor = 0` the lengths agree and the
claim gives `y = [1, 1]`; the code returns `[1, 0]`: the raw call is the one of the scalar
overload and is given no length, so only element 0 is rewritten. -/
theorem scale_vector_first_element_only :
    scale (R := ℤ) ⟨2, [0, 0]⟩ 1 ⟨2, [1, 1]⟩ 0 = .ok ⟨2, [1, 0]⟩ ∧
    scaleSpec (R := ℤ) ⟨2, [0, 0]⟩ 1 ⟨2, [1, 1]⟩ 0 = [1, 1] :=
  ⟨rfl, rfl⟩

/-! ## C11, C12: scaleBroadcast on a matrix -/

/-- C11: row-wise the call fails, with a dimension mismatch, exactly when the length of `x`
differs from the number of columns of `A`, and returns otherwise; column-wise the same with the
number of rows; with any other `op` it fails with an invalid argument whatever the shapes; and a
call that fails leaves `A` as it was. -/
theorem scaleBroadcast_fails_exactly {R : Type} [CommRing R] (A : DeviceMatrix R) (alpha : R)
    (x : DeviceVector R) (addAssignFactor : R) :
    ((scaleBroadcast A alpha x .opRowwise addAssignFactor = .error .dimensionMismatch
        ↔ x.size ≠ A.cols) ∧
      ((∃ A2, scaleBroadcast A alpha x .opRowwise addAssignFactor = .ok A2)
        ↔ x.size = A.cols)) ∧
    ((scaleBroadcast A alpha x .opColwise addAssignFactor = .error .dimensionMismatch
        ↔ x.size ≠ A.rows) ∧
      ((∃ A2, scaleBroadcast A alpha x .opColwise addAssignFactor = .ok A2)
        ↔ x.size = A.rows)) ∧
    (∀ v, scaleBroadcast A alpha x (.opOther v) addAssignFactor = .error .invalidArgument) ∧
    (∀ op e, scaleBroadcast A alpha x op addAssignFactor = .error e →
      destAfter A (scaleBroadcast A alpha x op addAssignFactor) = A) := by
  refine ⟨⟨?_, ?_⟩, ⟨?_, ?_⟩, fun _ => rfl, ?_⟩
  · by_cases h : A.cols = x.size
    · simp [scaleBroadcast, h]
    · simp [scaleBroadcast, h, Ne.symm h]
  · by_cases h : A.cols = x.size
    · simp [scaleBroadcast, h]
    · simp [scaleBroadcast, h, Ne.symm h]
  · by_cases h : A.rows = x.size
    · simp [scaleBroadcast, h]
    · simp [scaleBroadcast, h, Ne.symm h]
  · by_cases h : A.rows = x.size
    · simp [scaleBroadcast, h]
    · simp [scaleBroadcast, h, Ne.symm h]
  · intro op e h
    rw [h]
    rfl

/-- C12: on the `2×1` matrix `[[0],[0]]` with `x = [1]`, `alpha = 1`, `addFactor = 0` the
row-wise call returns `[[1],[0]]` where every element should be 1: the raw call is told `A->cols`
rows. Column-wise with `x = [1, 2]` it returns `[[1],[1]]` where the rows should be 1 and 2. -/
theorem scaleBroadcast_nonsquare :
    scaleBroadcast (R := ℤ) ⟨2, 1, [0, 0]⟩ 1 ⟨1, [1]⟩ .opRowwise 0 = .ok ⟨2, 1, [1, 0]⟩ ∧
    scaleBroadcastSpec (R := ℤ) ⟨2, 1, [0, 0]⟩ 1 ⟨1, [1]⟩ .opRowwise 0 = [1, 1] ∧
    scaleBroadcast (R := ℤ) ⟨2, 1, [0, 0]⟩ 1 ⟨2, [1, 2]⟩ .opColwise 0 = .ok ⟨2, 1, [1, 1]⟩ ∧
    scaleBroadcastSpec (R := ℤ) ⟨2, 1, [0, 0]⟩ 1 ⟨2, [1, 2]⟩ .opColwise 0 = [1, 2] :=
  ⟨rfl, rfl, rfl, rfl⟩

/-! ## C13: dotBatched and row lengths -/

/-- With both flags `opNone`, `dotBatched` returns whatever the shape of `B`. -/
theorem dotBatched_opNone_returns {R : Type} [CommRing R] (z : DeviceVector R) (alpha : R)
    (A B : DeviceMatrix R) (addAssignFactor : R) :
    dotBatched z alpha A .opNone B .opNone addAssignFactor
      = .ok ⟨z.size, Kernel.dotBatched z.d_data alpha A.d_data B.d_data A.cols A.rows
          addAssignFactor⟩ := rfl

/-- C13: with `A = [[1]]` (rows of length 1) and `B = [[2, 3]]` (rows of length 2), both flags
`opNone`, the call does not fail: it returns `z = [2]`, the product of the first element of each
buffer, reading `B` with the row length of `A`. -/
theorem dotBatched_no_length_check :
    opCols (R := ℤ) .opNone ⟨1, 1, [1]⟩ ≠ opCols (R := ℤ) .opNone ⟨1, 2, [2, 3]⟩ ∧
    dotBatched (R := ℤ) ⟨1, [0]⟩ 1 ⟨1, 1, [1]⟩ .opNone ⟨1, 2, [2, 3]⟩ .opNone 0
      = .ok ⟨1, [2]⟩ :=
  ⟨by decide, rfl⟩

/-! ## C14: min -/

/-- The member `min` returns for every operand, with the destination as it was. -/
theorem min_always_returns {R : Type} [CommRing R] (s : DeviceScalar R) (A : DeviceMatrix R) :
    min s A = .ok s := rfl

/-- C14: with `s = 5` and `A = [[1]]` the call reports no error: it returns with `s` still 5. -/
theorem min_returns_silently :
    min (R := ℤ) ⟨[5]⟩ ⟨1, 1, [1]⟩ = .ok ⟨[5]⟩ ∧
    ¬ ∃ e, min (R := ℤ) ⟨[5]⟩ ⟨1, 1, [1]⟩ = .error e :=
  ⟨rfl, fun ⟨_, h⟩ => by cases h⟩

/-! ## C17: the diagonal written and the diagonal read -/

/-- C17: on the `2×3` zero matrix with `v = 1`, `setToDiagonals` writes elements 0 and 3 of the
buffer (stride `rows + 1 = 3`), `sumDiagonals` reads elements 0 and 4 (stride `cols + 1 = 4`)
and stores 1, where `v · min(2, 3)` is 2. -/
theorem diagonal_stride_mismatch :
    setToDiagonals (R := ℤ) ⟨2, 3, [0, 0, 0, 0, 0, 0]⟩ 1 = ⟨2, 3, [1, 0, 0, 1, 0, 0]⟩ ∧
    sumDiagonals (R := ℤ) ⟨[0]⟩ (setToDiagonals ⟨2, 3, [0, 0, 0, 0, 0, 0]⟩ 1) = ⟨[1]⟩ ∧
    (1 : ℤ) * ((Nat.min 2 3 : Nat) : ℤ) = 2 :=
  ⟨rfl, rfl, rfl⟩

/-! ## C18: the scratch matrix of batchedVmvProduct -/

/-- C18: with `x` of shape `1×2` (`P = 1`, `N = 2`) and `A` of shape `2×2`, the scratch matrix
has the shape `1×2` of `x·Aᵗ`, the `gemm` call forms `xᵗ·A`, whose operands `2×1` and `2×2` are
not conformable and whose shape would be `2×2`; the call ends in a dimension mismatch. -/
theorem batchedVmvProduct_scratch_shape :
    getProductShape (R := ℤ) ⟨1, 2, [1, 1]⟩ .opNone ⟨2, 2, [1, 0, 0, 1]⟩ .opTranspose = ⟨1, 2⟩ ∧
    getProductShape (R := ℤ) ⟨1, 2, [1, 1]⟩ .opTranspose ⟨2, 2, [1, 0, 0, 1]⟩ .opNone = ⟨2, 2⟩ ∧
    opCols (R := ℤ) .opTranspose ⟨1, 2, [1, 1]⟩ ≠ opRows (R := ℤ) .opNone ⟨2, 2, [1, 0, 0, 1]⟩ ∧
    batchedVmvProduct (R := ℤ) ⟨1, [0]⟩ 1 ⟨1, 2, [1, 1]⟩ ⟨2, 2, [1, 0, 0, 1]⟩ ⟨1, 2, [1, 1]⟩
      = .error .dimensionMismatch :=
  ⟨rfl, rfl, by decide, rfl⟩

/-! ## C16: the readiness flags -/

theorem and_two_pow_eq_iff (s k : Nat) : s &&& 2 ^ k = 2 ^ k ↔ s.testBit k = true := by
  constructor
  · intro h
    have h2 := congrArg (fun n => n.testBit k) h
    simpa [Nat.testBit_two_pow_self] using h2
  · intro h
    apply Nat.eq_of_testBit_eq
    intro i
    rw [Nat.testBit_and, Nat.testBit_two_pow]
    by_cases hk : k = i
    · subst hk
      simp [h]
    · simp [hk]

theorem hasFlag_annRandSeedGiven (s : Nat) : hasFlag s annRandSeedGiven ↔ s.testBit 0 = true :=
  and_two_pow_eq_iff s 0

theorem hasFlag_annProblemSet (s : Nat) : hasFlag s annProblemSet ↔ s.testBit 1 = true :=
  and_two_pow_eq_iff s 1

theorem hasFlag_annInitialized (s : Nat) : hasFlag s annInitialized ↔ s.testBit 2 = true :=
  and_two_pow_eq_iff s 2

theorem hasFlag_annQSet (s : Nat) : hasFlag s annQSet ↔ s.testBit 3 = true :=
  and_two_pow_eq_iff s 3

theorem hasFlag_annNTrottersGiven (s : Nat) : hasFlag s annNTrottersGiven ↔ s.testBit 5 = true :=
  and_two_pow_eq_iff s 5

theorem annQSetReady_testBit (i : Nat) : annQSetReady.testBit i = decide (i < 3) :=
  Nat.testBit_two_pow_sub_one 3 i

theorem hasFlag_annQSetReady (s : Nat) :
    hasFlag s annQSetReady ↔ s.testBit 0 = true ∧ s.testBit 1 = true ∧ s.testBit 2 = true := by
  unfold hasFlag
  constructor
  · intro h
    have hbit : ∀ i, i < 3 → s.testBit i = true := by
      intro i hi
      have h2 := congrArg (fun n => n.testBit i) h
      simp only [Nat.testBit_and, annQSetReady_testBit, decide_eq_true hi, Bool.and_true] at h2
      exact h2
    exact ⟨hbit 0 (by decide), hbit 1 (by decide), hbit 2 (by decide)⟩
  · rintro ⟨h0, h1, h2⟩
    apply Nat.eq_of_testBit_eq
    intro i
    rw [Nat.testBit_and, annQSetReady_testBit]
    by_cases hi : i < 3
    · have : i = 0 ∨ i = 1 ∨ i = 2 := by omega
      rcases this with rfl | rfl | rfl <;> simp [h0, h1, h2]
    · simp [hi]

theorem toggle_high_bit_masked (s k : Nat) (hk : 3 ≤ k) :
    (s ^^^ 2 ^ k) &&& annQSetReady = s &&& annQSetReady := by
  apply Nat.eq_of_testBit_eq
  intro i
  rw [Nat.testBit_and, Nat.testBit_and, Nat.testBit_xor, Nat.testBit_two_pow,
    annQSetReady_testBit]
  by_cases hi : i < 3
  · have hne : ¬ k = i := by omega
    simp [hne]
  · simp [hi]

/-- C16: the five flags are the single bits 0, 1, 2, 3 and 5, all different, and for every state
`s` the test `(s & annQSetReady) == annQSetReady` holds exactly when `annProblemSet`,
`annRandSeedGiven` and `annInitialized` are all set in `s`; setting or clearing `annQSet` or
`annNTrottersGiven` in `s` does not change `s & annQSetReady`. -/
theorem annQSetReady_test :
    (annRandSeedGiven = 2 ^ 0 ∧ annProblemSet = 2 ^ 1 ∧ annInitialized = 2 ^ 2 ∧
      annQSet = 2 ^ 3 ∧ annNTrottersGiven = 2 ^ 5) ∧
    [annRandSeedGiven, annProblemSet, annInitialized, annQSet, annNTrottersGiven].Nodup ∧
    (∀ s : Nat, s &&& annQSetReady = annQSetReady ↔
      (s &&& annProblemSet = annProblemSet ∧ s &&& annRandSeedGiven = annRandSeedGiven ∧
        s &&& annInitialized = annInitialized)) ∧
    (∀ s : Nat, (s ^^^ annQSet) &&& annQSetReady = s &&& annQSetReady ∧
      (s ^^^ annNTrottersGiven) &&& annQSetReady = s &&& annQSetReady) := by
  refine ⟨⟨rfl, rfl, rfl, rfl, rfl⟩, by decide, ?_, ?_⟩
  · intro s
    have h := hasFlag_annQSetReady s
    have hp := hasFlag_annProblemSet s
    have hr := hasFlag_annRandSeedGiven s
    have hi := hasFlag_annInitialized s
    unfold hasFlag at h hp hr hi
    rw [h, hp, hr, hi]
    tauto
  · intro s
    exact ⟨toggle_high_bit_masked s 3 (by decide), toggle_high_bit_masked s 5 (by decide)⟩

/-! ## C15: annealOneStep before the spins are set -/

theorem clearFlags_testBit_three (s : Nat) :
    (clearFlags s (annInitialized ||| annQSet)).testBit 3 = false := by
  unfold clearFlags
  rw [Nat.testBit_and]
  have h : Nat.testBit (4294967295 ^^^ (annInitialized ||| annQSet)) 3 = false := by decide
  rw [h, Bool.and_false]

theorem clearFlags_testBit_two (s : Nat) :
    (clearFlags s (annInitialized ||| annQSet)).testBit 2 = false := by
  unfold clearFlags
  rw [Nat.testBit_and]
  have h : Nat.testBit (4294967295 ^^^ (annInitialized ||| annQSet)) 2 = false := by decide
  rw [h, Bool.and_false]

theorem or_flag_testBit (s k i : Nat) :
    (s ||| 2 ^ k).testBit i = (s.testBit i || decide (k = i)) := by
  rw [Nat.testBit_or, Nat.testBit_two_pow]

/-- In a state without `annQSet`, `annealOneStep` reports NotReady and returns the object as it
was. -/
theorem annealOneStep_without_annQSet {R : Type} [CommRing R]
    (sweep : DeviceMatrix R → R → R → DeviceMatrix R) (a : CUDADenseGraphAnnealer R) (G kT : R)
    (h : ¬ hasFlag a.annState_ annQSet) :
    a.annealOneStep sweep G kT = ⟨a, some .notReady⟩ := by
  unfold CUDADenseGraphAnnealer.annealOneStep
  rw [if_neg h]

/-- No call sets `annQSet` in a state where `annInitialized` is clear: a state with the spins
set is an initialized state, and every call keeps it so. -/
theorem perform_keeps_order {R : Type} [CommRing R]
    (sweep : DeviceMatrix R → R → R → DeviceMatrix R) (a : CUDADenseGraphAnnealer R)
    (c : Call R) (h : hasFlag a.annState_ annQSet → hasFlag a.annState_ annInitialized) :
    hasFlag (perform sweep a c).state.annState_ annQSet →
      hasFlag (perform sweep a c).state.annState_ annInitialized := by
  rw [hasFlag_annQSet, hasFlag_annInitialized] at h ⊢
  cases c with
  | seed value =>
    show (a.annState_ ||| 2 ^ 0).testBit 3 = true → (a.annState_ ||| 2 ^ 0).testBit 2 = true
    rw [or_flag_testBit, or_flag_testBit]
    simpa using h
  | setProblem W =>
    dsimp only [perform, CUDADenseGraphAnnealer.setProblem]
    by_cases hW : W.rows = W.cols
    · rw [if_neg (fun hne => hne hW)]
      intro h3
      rw [clearFlags_testBit_three] at h3
      exact absurd h3 (by decide)
    · rw [if_pos hW]
      exact h
  | setNumTrotters P =>
    dsimp only [perform, CUDADenseGraphAnnealer.setNumTrotters]
    by_cases hP : P = a.m_
    · simp only [hP, ne_eq, not_true_eq_false, if_false]
      show (a.annState_ ||| 2 ^ 5).testBit 3 = true → (a.annState_ ||| 2 ^ 5).testBit 2 = true
      rw [or_flag_testBit, or_flag_testBit]
      simpa using h
    · simp only [ne_eq, hP, not_false_eq_true, if_true]
      intro h3
      rw [clearFlags_testBit_three] at h3
      exact absurd h3 (by decide)
  | initAnneal =>
    dsimp only [perform, CUDADenseGraphAnnealer.initAnneal]
    split
    · intro _
      show (a.annState_ ||| 2 ^ 2).testBit 2 = true
      rw [or_flag_testBit]
      simp
    · exact h
  | randomize_q draws =>
    dsimp only [perform, CUDADenseGraphAnnealer.randomize_q]
    split
    · rename_i hinit
      rw [hasFlag_annInitialized] at hinit
      intro _
      show (a.annState_ ||| 2 ^ 3).testBit 2 = true
      rw [or_flag_testBit, hinit]
      rfl
    · exact h
  | set_x x =>
    dsimp only [perform, CUDADenseGraphAnnealer.set_x]
    split
    · rename_i hinit
      rw [hasFlag_annInitialized] at hinit
      intro _
      show (a.annState_ ||| 2 ^ 3).testBit 2 = true
      rw [or_flag_testBit, hinit]
      rfl
    · exact h
  | annealOneStep G kT =>
    dsimp only [perform, CUDADenseGraphAnnealer.annealOneStep]
    split
    · exact h
    · exact h
  | calculate_E =>
    dsimp only [perform, CUDADenseGraphAnnealer.calculate_E]
    split
    · exact h
    · exact h
  | finAnneal =>
    dsimp only [perform, CUDADenseGraphAnnealer.finAnneal]
    intro h3
    rw [clearFlags_testBit_three] at h3
    exact absurd h3 (by decide)

theorem performAll_keeps_order {R : Type} [CommRing R]
    (sweep : DeviceMatrix R → R → R → DeviceMatrix R) (calls : List (Call R))
    (a : CUDADenseGraphAnnealer R)
    (h : hasFlag a.annState_ annQSet → hasFlag a.annState_ annInitialized) :
    hasFlag (performAll sweep a calls).annState_ annQSet →
      hasFlag (performAll sweep a calls).annState_ annInitialized := by
  induction calls generalizing a with
  | nil => exact h
  | cons c rest ih => exact ih (perform sweep a c).state (perform_keeps_order sweep a c h)

/-- C15: in every state the annealer reaches from construction by any sequence of calls, if the
flags `annInitialized` and `annQSet` are not both set then `annealOneStep(G, kT)` reports
NotReady and returns the object, its replica spin matrix and its state flags, as it was. -/
theorem annealOneStep_notReady {R : Type} [CommRing R]
    (sweep : DeviceMatrix R → R → R → DeviceMatrix R) (calls : List (Call R)) (G kT : R)
    (h : ¬ (hasFlag (performAll sweep CUDADenseGraphAnnealer.new calls).annState_ annInitialized
      ∧ hasFlag (performAll sweep CUDADenseGraphAnnealer.new calls).annState_ annQSet)) :
    (performAll sweep CUDADenseGraphAnnealer.new calls).annealOneStep sweep G kT
      = ⟨performAll sweep CUDADenseGraphAnnealer.new calls, some .notReady⟩ := by
  apply annealOneStep_without_annQSet
  intro hq
  have hinit := performAll_keeps_order sweep calls CUDADenseGraphAnnealer.new
    (fun h0 => absurd (show hasFlag 0 8 from h0) (by decide)) hq
  exact h ⟨hinit, hq⟩

/-- Witness of C15: seeded, problem set, two trotters, `initAnneal` done and `randomize_q` not
yet called: `annInitialized` is set, `annQSet` is not, and `annealOneStep` reports NotReady. -/
theorem annealOneStep_notReady_witness :
    ¬ (hasFlag (performAll (R := ℤ) (fun q _ _ => q) CUDADenseGraphAnnealer.new
          [.seed 42, .setProblem ⟨2, 2, [0, 1, 1, 0]⟩, .setNumTrotters 2, .initAnneal]).annState_
        annInitialized
      ∧ hasFlag (performAll (R := ℤ) (fun q _ _ => q) CUDADenseGraphAnnealer.new
          [.seed 42, .setProblem ⟨2, 2, [0, 1, 1, 0]⟩, .setNumTrotters 2, .initAnneal]).annState_
        annQSet) ∧
    (performAll (R := ℤ) (fun q _ _ => q) CUDADenseGraphAnnealer.new
        [.seed 42, .setProblem ⟨2, 2, [0, 1, 1, 0]⟩, .setNumTrotters 2,
          .initAnneal]).annealOneStep (fun q _ _ => q) 1 1
      = ⟨performAll (R := ℤ) (fun q _ _ => q) CUDADenseGraphAnnealer.new
          [.seed 42, .setProblem ⟨2, 2, [0, 1, 1, 0]⟩, .setNumTrotters 2, .initAnneal],
        some .notReady⟩ :=
  ⟨by decide,
    annealOneStep_notReady (R := ℤ) (fun q _ _ => q)
      [.seed 42, .setProblem ⟨2, 2, [0, 1, 1, 0]⟩, .setNumTrotters 2, .initAnneal] 1 1
      (by decide)⟩

/-- Once `randomize_q` has run after `initAnneal`, the same call reports no error: the
precondition can be met. -/
theorem annealOneStep_ready_example :
    ((performAll (R := ℤ) (fun q _ _ => q) CUDADenseGraphAnnealer.new
        [.seed 42, .setProblem ⟨2, 2, [0, 1, 1, 0]⟩, .setNumTrotters 2, .initAnneal,
          .randomize_q [1, -1, -1, 1]]).annealOneStep (fun q _ _ => q) 1 1).error = none :=
  by decide

/-- A successful `setProblem` leaves `annInitialized` and `annQSet` clear, whatever the state
before: after it `annealOneStep` reports NotReady until `initAnneal` and `randomize_q` or `set_x`
have run again. -/
theorem setProblem_clears {R : Type} [CommRing R] (a : CUDADenseGraphAnnealer R)
    (W : DeviceMatrix R) (hW : W.rows = W.cols) :
    (a.setProblem W).error = none ∧
    ¬ hasFlag (a.setProblem W).state.annState_ annInitialized ∧
    ¬ hasFlag (a.setProblem W).state.annState_ annQSet := by
  unfold CUDADenseGraphAnnealer.setProblem
  rw [if_neg (fun hne => hne hW), hasFlag_annInitialized, hasFlag_annQSet]
  refine ⟨rfl, ?_, ?_⟩
  · show ¬ (clearFlags _ _).testBit 2 = true
    rw [clearFlags_testBit_two]
    decide
  · show ¬ (clearFlags _ _).testBit 3 = true
    rw [clearFlags_testBit_three]
    decide

/-- A call other than `initAnneal` does not set `annInitialized`. -/
theorem perform_keeps_uninitialized {R : Type} [CommRing R]
    (sweep : DeviceMatrix R → R → R → DeviceMatrix R) (a : CUDADenseGraphAnnealer R)
    (c : Call R) (hc : c ≠ .initAnneal) (h : ¬ hasFlag a.annState_ annInitialized) :
    ¬ hasFlag (perform sweep a c).state.annState_ annInitialized := by
  have h0 := h
  rw [hasFlag_annInitialized] at h ⊢
  cases c with
  | seed value =>
    show ¬ (a.annState_ ||| 2 ^ 0).testBit 2 = true
    rw [or_flag_testBit]
    simpa using h
  | setProblem W =>
    dsimp only [perform, CUDADenseGraphAnnealer.setProblem]
    by_cases hW : W.rows = W.cols
    · rw [if_neg (fun hne => hne hW)]
      show ¬ (clearFlags _ _).testBit 2 = true
      rw [clearFlags_testBit_two]
      decide
    · rw [if_pos hW]
      exact h
  | setNumTrotters P =>
    dsimp only [perform, CUDADenseGraphAnnealer.setNumTrotters]
    by_cases hP : P = a.m_
    · simp only [hP, ne_eq, not_true_eq_false, if_false]
      show ¬ (a.annState_ ||| 2 ^ 5).testBit 2 = true
      rw [or_flag_testBit]
      simpa using h
    · simp only [ne_eq, hP, not_false_eq_true, if_true]
      rw [clearFlags_testBit_two]
      decide
  | initAnneal => exact absurd rfl hc
  | randomize_q draws =>
    dsimp only [perform, CUDADenseGraphAnnealer.randomize_q]
    rw [if_neg h0]
    exact h
  | set_x x =>
    dsimp only [perform, CUDADenseGraphAnnealer.set_x]
    rw [if_neg h0]
    exact h
  | annealOneStep G kT =>
    dsimp only [perform, CUDADenseGraphAnnealer.annealOneStep]
    split
    · exact h
    · exact h
  | calculate_E =>
    dsimp only [perform, CUDADenseGraphAnnealer.calculate_E]
    split
    · exact h
    · exact h
  | finAnneal =>
    dsimp only [perform, CUDADenseGraphAnnealer.finAnneal]
    rw [clearFlags_testBit_two]
    decide

/-- A call other than `randomize_q` and `set_x` does not set `annQSet`. -/
theorem perform_keeps_unset {R : Type} [CommRing R]
    (sweep : DeviceMatrix R → R → R → DeviceMatrix R) (a : CUDADenseGraphAnnealer R)
    (c : Call R) (hc : (∀ d, c ≠ .randomize_q d) ∧ (∀ x, c ≠ .set_x x))
    (h : ¬ hasFlag a.annState_ annQSet) :
    ¬ hasFlag (perform sweep a c).state.annState_ annQSet := by
  rw [hasFlag_annQSet] at h ⊢
  cases c with
  | seed value =>
    show ¬ (a.annState_ ||| 2 ^ 0).testBit 3 = true
    rw [or_flag_testBit]
    simpa using h
  | setProblem W =>
    dsimp only [perform, CUDADenseGraphAnnealer.setProblem]
    by_cases hW : W.rows = W.cols
    · rw [if_neg (fun hne => hne hW)]
      show ¬ (clearFlags _ _).testBit 3 = true
      rw [clearFlags_testBit_three]
      decide
    · rw [if_pos hW]
      exact h
  | setNumTrotters P =>
    dsimp only [perform, CUDADenseGraphAnnealer.setNumTrotters]
    by_cases hP : P = a.m_
    · simp only [hP, ne_eq, not_true_eq_false, if_false]
      show ¬ (a.annState_ ||| 2 ^ 5).testBit 3 = true
      rw [or_flag_testBit]
      simpa using h
    · simp only [ne_eq, hP, not_false_eq_true, if_true]
      rw [clearFlags_testBit_three]
      decide
  | initAnneal =>
    dsimp only [perform, CUDADenseGraphAnnealer.initAnneal]
    split
    · show ¬ (a.annState_ ||| 2 ^ 2).testBit 3 = true
      rw [or_flag_testBit]
      simpa using h
    · exact h
  | randomize_q draws => exact absurd rfl (hc.1 draws)
  | set_x x => exact absurd rfl (hc.2 x)
  | annealOneStep G kT =>
    dsimp only [perform, CUDADenseGraphAnnealer.annealOneStep]
    split
    · exact h
    · exact h
  | calculate_E =>
    dsimp only [perform, CUDADenseGraphAnnealer.calculate_E]
    split
    · exact h
    · exact h
  | finAnneal =>
    dsimp only [perform, CUDADenseGraphAnnealer.finAnneal]
    rw [clearFlags_testBit_three]
    decide

/-- After a successful `setProblem`, on any object, as long as the calls that follow contain no
`initAnneal`, or contain neither `randomize_q` nor `set_x`, `annealOneStep` reports NotReady and
returns the object as it was. -/
theorem annealOneStep_since_setProblem {R : Type} [CommRing R]
    (sweep : DeviceMatrix R → R → R → DeviceMatrix R) (a : CUDADenseGraphAnnealer R)
    (W : DeviceMatrix R) (hW : W.rows = W.cols) (calls : List (Call R)) (G kT : R)
    (h : (∀ c ∈ calls, c ≠ Call.initAnneal) ∨
      (∀ c ∈ calls, (∀ d, c ≠ Call.randomize_q d) ∧ (∀ x, c ≠ Call.set_x x))) :
    (performAll sweep (a.setProblem W).state calls).annealOneStep sweep G kT
      = ⟨performAll sweep (a.setProblem W).state calls, some .notReady⟩ := by
  obtain ⟨_, h2, h3⟩ := setProblem_clears a W hW
  apply annealOneStep_without_annQSet
  generalize (a.setProblem W).state = b at h2 h3
  rcases h with h | h
  · intro hq
    have hinit := performAll_keeps_order sweep calls b (fun hb => absurd hb h3) hq
    revert hinit
    clear hq h3
    induction calls generalizing b with
    | nil => exact h2
    | cons c rest ih =>
      show ¬ hasFlag (performAll sweep (perform sweep b c).state rest).annState_ annInitialized
      apply ih
      · exact perform_keeps_uninitialized sweep b c (h c (List.mem_cons_self _ _)) h2
      · exact fun c2 hc2 => h c2 (List.mem_cons_of_mem _ hc2)
  · clear h2
    induction calls generalizing b with
    | nil => exact h3
    | cons c rest ih =>
      show ¬ hasFlag (performAll sweep (perform sweep b c).state rest).annState_ annQSet
      apply ih
      · exact perform_keeps_unset sweep b c (h c (List.mem_cons_self _ _)) h3
      · exact fun c2 hc2 => h c2 (List.mem_cons_of_mem _ hc2)

end Sqaod
